import Mathlib

/-!
Verification of the cumulative-height index and windowing logic of
`src/Vue3Vscroll.vue` (the Vue3Vscroll component).

The component keeps, per row `ri` of the external `list`, a cached height
`rowInfo[ri*2]` and a binary-indexed accumulator entry `rowInfo[ri*2+1]`
holding the sum of the trailing block of `s` heights ending at `ri`, where
`s = ((ri xor ri+1) + 1) / 2`.  All numeric values are modelled as
rationals (idealised JavaScript numbers); array indices are naturals.

Each definition below mirrors one function of the source file:
`updateAll`, `update1`, `updateRange`, `update`, `getRowTop`, `getRowIdx`,
`getStartIdx`, `getEndIdx`, `redraw`.  JavaScript `while` loops over a
doubling/halving `bit` are written as structural recursion over the bit
exponent; the iteration counts are chosen to be exactly the number of
iterations the source loop performs.  Out-of-range array reads are
modelled with `List.get?` where the source can actually perform them
(`getRowIdx`), and a separate `Option`-valued model (`update1JS`) captures
raw JavaScript semantics (undefined/NaN) for the out-of-range point
update.  Everywhere else the modelled loops only ever touch in-range
indices, and plain `List.getD _ _ 0` is used.
-/

namespace Vscroll

/-- A row of the external `list`, reduced to the only field the component
reads: its height attribute `list[ri][heightAttrName]`, which may be
absent (`none`). -/
abbrev Row := Option ℚ

/-- `list.value[rowIdx]?.[heightAttrName] ?? defaultHeight` : the height
the component reads for row `rowIdx` (missing row or missing attribute
falls back to the default height). -/
def rowHeight (lst : List Row) (dh : ℚ) (rowIdx : ℕ) : ℚ :=
  ((lst.get? rowIdx).getD none).getD dh

/-- Fuel-driven floor-log2: `flog2Go fuel n` halves `n` until it reaches
`0` or `1` (at most `fuel` times). -/
def flog2Go : ℕ → ℕ → ℕ
  | 0, _ => 0
  | fuel + 1, n => if n ≤ 1 then 0 else flog2Go fuel (n / 2) + 1

/-- `Math.floor(Math.log2 n)` for `n ≥ 1` (and `0` at `n = 0`), defined
by structural recursion so that concrete instances evaluate by
`decide`. -/
def flog2 (n : ℕ) : ℕ := flog2Go n n

/-- `s = ((ri xor ri+1) + 1) / 2` from the `rowInfo` documentation and
`updateAll`: the size of the accumulator block ending at row `ri`
(the largest power of two dividing `ri+1`). -/
def s_of (ri : ℕ) : ℕ := ((ri ^^^ (ri + 1)) + 1) / 2

/-- Stored height of row `j`: `rowInfo[j*2]`. -/
def leaf (info : List ℚ) (j : ℕ) : ℚ := info.getD (2 * j) 0

/-- `h(0) + h(1) + ... + h(k-1)` recomputed from scratch from the stored
leaf heights: the specification-level prefix sum. -/
def leafSum (info : List ℚ) : ℕ → ℚ
  | 0 => 0
  | k + 1 => leafSum info k + leaf info k

/-- The documented shape of `rowInfo`: length `2*len`, and every
accumulator entry `rowInfo[2i+1]` holds the sum of the trailing block of
`s_of i` stored heights ending at row `i`
(`h(i-s+1) + ... + h(i) = leafSum (i+1) - leafSum (i+1-s)`). -/
def coherent (info : List ℚ) (len : ℕ) : Prop :=
  info.length = 2 * len ∧
    ∀ i, i < len →
      info.getD (2 * i + 1) 0 = leafSum info (i + 1) - leafSum info (i + 1 - s_of i)

instance (info : List ℚ) (len : ℕ) : Decidable (coherent info len) := by
  unfold coherent; infer_instance

/-- `updateAll` (source lines 195-205): rebuild `rowInfo` of size
`2*len` with every stored height equal to `defaultHeight` and every
accumulator entry equal to `defaultHeight * s`.  Returns the new
`rowInfo`; the new `listLength` is `lst.length`. -/
def updateAll (lst : List Row) (dh : ℚ) : List ℚ :=
  (List.range (2 * lst.length)).map fun j =>
    if j % 2 = 0 then dh else dh * (s_of (j / 2) : ℚ)

/-- `info.set k (info[k] + d)` : the `info[k] += diff` write. -/
def bump (info : List ℚ) (k : ℕ) (d : ℚ) : List ℚ :=
  info.set k (info.getD k 0 + d)

/-- The `while(bit < len)` loop of `update1` (source lines 180-187),
with `bit = 2^e`.  `fuel` bounds the number of iterations; `update1`
supplies `fuel = len`, which is enough since the loop exits as soon as
`2^e ≥ len` and `2^len > len`. -/
def up1Go (len : ℕ) (diff : ℚ) : ℕ → ℕ → ℕ → List ℚ → List ℚ
  | 0, _, _, info => info
  | fuel + 1, e, ri, info =>
    if 2 ^ e < len then
      if ri &&& 2 ^ e = 0 then
        if len ≤ ri + 2 ^ e then info
        else up1Go len diff fuel (e + 1) (ri + 2 ^ e) (bump info (2 * (ri + 2 ^ e) + 1) diff)
      else up1Go len diff fuel (e + 1) ri info
    else info

/-- `update1(rowIdx)` (source lines 170-188): point update of the height
of row `rowIdx` to the value currently stored in the external list,
propagating the difference into every accumulator block that covers the
row.  (The component only ever calls it with `rowIdx < listLength`,
through `updateRange`; this model uses in-range array semantics.
`update1JS` below keeps the raw JavaScript semantics for out-of-range
indices.) -/
def update1 (lst : List Row) (dh : ℚ) (len : ℕ) (rowIdx : ℕ) (info : List ℚ) : List ℚ :=
  let newHeight := rowHeight lst dh rowIdx
  let diff := newHeight - info.getD (2 * rowIdx) 0
  if diff = 0 then info
  else up1Go len diff len 0 rowIdx (bump (bump info (2 * rowIdx) diff) (2 * rowIdx + 1) diff)

/-- `updateRange(from, to)` (source lines 190-193): `update1` on every
row in `[from, min to len)`. -/
def updateRange (lst : List Row) (dh : ℚ) (len : ℕ) (lo hi : ℕ) (info : List ℚ) : List ℚ :=
  (List.range' lo (min hi len - lo)).foldl (fun inf ri => update1 lst dh len ri inf) info

/-- `update()` (source lines 207-221): synchronise `(rowInfo, listLength)`
with the current list, then refresh the rows of the current window
`[sIdx, eIdx)`.  Takes and returns the pair `(rowInfo, listLength)`. -/
def update (lst : List Row) (dh : ℚ) (sIdx eIdx : ℕ) :
    List ℚ × ℕ → List ℚ × ℕ
  | (info, oldLen) =>
    let len := lst.length
    if oldLen = 0 then
      (updateRange lst dh len sIdx eIdx (updateAll lst dh), len)
    else if len < oldLen then
      (updateRange lst dh len sIdx eIdx (info.take (2 * len)), len)
    else if oldLen < len then
      (updateRange lst dh len sIdx eIdx
        (updateRange lst dh len oldLen len (info ++ List.replicate ((len - oldLen) * 2) 0)),
       len)
    else
      (updateRange lst dh len sIdx eIdx info, len)

/-- The `while(bit <= upto)` loop of `getRowTop` (source lines 229-235):
iteration with `bit = 2^e` adds `rowInfo[ri*2-1]` for each set bit of the
running `ri`.  `steps` is the exact number of iterations the source loop
performs (the number of exponents `e` with `2^e ≤ upto`). -/
def grtGo (info : List ℚ) : ℕ → ℕ → ℕ → ℚ → ℚ
  | 0, _, _, sum => sum
  | steps + 1, e, ri, sum =>
    if ri &&& 2 ^ e ≠ 0 then
      grtGo info steps (e + 1) (ri - 2 ^ e) (sum + info.getD (ri * 2 - 1) 0)
    else grtGo info steps (e + 1) ri sum

/-- `getRowTop(rowIdx)` (source lines 223-237): the accumulator-based
prefix sum `h(0)+...+h(rowIdx-1)`. -/
def getRowTop (info : List ℚ) (len : ℕ) (rowIdx : ℕ) : ℚ :=
  let upto := min rowIdx len
  grtGo info (if upto = 0 then 0 else flog2 upto + 1) 0 rowIdx 0

/-- `getTotalRowHeight()` (source lines 256-258). -/
def getTotalRowHeight (info : List ℚ) (len : ℕ) : ℚ := getRowTop info len len

/-- Exponent of `bpt` (source line 133): `bpt = 2^(floor(log2 len))` is
the largest power of two `≤ len`; `getRowIdx`'s loop runs for
`bit = bpt, bpt/2, ..., 1`, i.e. `bptExp len` iterations (zero when
`len = 0`, where `bpt = 2^(-∞) = 0` in JavaScript). -/
def bptExp (len : ℕ) : ℕ := if len = 0 then 0 else flog2 len + 1

/-- The `while(bit >= 1)` descent of `getRowIdx` (source lines 245-252)
with `bit = 2^e`; the counter `eC = e+1` counts remaining iterations.
The source reads `info[(ri+bit)*2-1]`, which is out of range when
`ri + bit > len`; JavaScript then yields `undefined` and the comparison
`rest >= undefined` is false, so the descent skips that bit.  This is
modelled by matching on `List.get?`. -/
def griGo (info : List ℚ) : ℕ → ℕ → ℚ → ℕ
  | 0, ri, _ => ri
  | eC + 1, ri, rest =>
    match info.get? ((ri + 2 ^ eC) * 2 - 1) with
    | none => griGo info eC ri rest
    | some h => if h ≤ rest then griGo info eC (ri + 2 ^ eC) (rest - h) else griGo info eC ri rest

/-- `getRowIdx(rowTop)` (source lines 239-254): binary descent locating
the row containing offset `rowTop`; `-1` for negative offsets. -/
def getRowIdx (info : List ℚ) (len : ℕ) (rowTop : ℚ) : ℤ :=
  if rowTop < 0 then -1
  else (griGo info (bptExp len) 0 rowTop : ℤ)

/-! ## The windowing layer: component configuration, external inputs and
reactive state, `getStartIdx` / `getEndIdx` / `redraw`. -/

/-- The component props that the windowing logic reads.  `list` carries
only the height attribute of each row; `heightAttrName` is thereby
abstracted away.  `viewportHeight`/`padding` are `none` when the prop is
omitted (JavaScript `null`). -/
structure Cfg where
  list : List Row
  defaultHeight : ℚ
  headerHeight : ℚ
  footerHeight : ℚ
  viewportHeight : Option ℚ
  padding : Option ℚ
  hysteresis : ℚ
  deriving DecidableEq

/-- External measurements read inside `redraw()`:
`viewport.scrollTop`, `viewport.getBoundingClientRect().y` and
`window.innerHeight`. -/
structure Env where
  scrollTop : ℚ
  viewportTop : ℚ
  windowHeight : ℚ
  deriving DecidableEq

/-- The component's reactive state (`ref`s of the source).  `sheetStyle`
is reduced to its `translateY` offset, `none` before the first publish
(the initial `{}` style). -/
structure CState where
  vlist : List Row
  sheetStyle : Option ℚ
  startIdx : ℕ
  endIdx : ℕ
  startTop : ℚ
  endTop : ℚ
  viewportHeight2 : ℚ
  screenHeight : ℚ
  rowInfo : List ℚ
  listLength : ℕ
  deriving DecidableEq

/-- The state at component creation (source lines 21-37). -/
def initialState : CState :=
  ⟨[], none, 0, 0, 0, 0, 0, 0, [], 0⟩

/-- The `update()` call at the top of `redraw()`: synchronise
`rowInfo`/`listLength` from the current list and window. -/
def afterUpdate (c : Cfg) (s : CState) : CState :=
  let p := update c.list c.defaultHeight s.startIdx s.endIdx (s.rowInfo, s.listLength)
  { s with rowInfo := p.1, listLength := p.2 }

/-- `getStartIdx(topOffset, padding2)` (source lines 260-268): keep the
cached `startIdx` while `startTop` stays inside the hysteresis band,
otherwise relocate (`Math.max(0, ...)` is `Int.toNat`). -/
def getStartIdx (c : Cfg) (s : CState) (topOffset padding2 : ℚ) : ℕ :=
  if s.startTop < topOffset - padding2 * (1 + c.hysteresis) ∨
      topOffset - padding2 * (1 - c.hysteresis) < s.startTop then
    (getRowIdx s.rowInfo s.listLength (topOffset - padding2)).toNat
  else s.startIdx

/-- `getEndIdx(bottomOffset, padding2)` (source lines 270-279). -/
def getEndIdx (c : Cfg) (s : CState) (bottomOffset padding2 : ℚ) : ℕ :=
  if s.endTop < bottomOffset + padding2 * (1 - c.hysteresis) ∨
      bottomOffset + padding2 * (1 + c.hysteresis) < s.endTop then
    (min (s.listLength : ℤ) (getRowIdx s.rowInfo s.listLength (bottomOffset + padding2) + 1)).toNat
  else s.endIdx

/-- `headerHeight + getTotalRowHeight() + footerHeight` (source line 288). -/
def screenHOf (c : Cfg) (s1 : CState) : ℚ :=
  c.headerHeight + getTotalRowHeight s1.rowInfo s1.listLength + c.footerHeight

/-- `viewportHeight == null ? screenHeight : viewportHeight` (line 289). -/
def vpH2Of (c : Cfg) (s1 : CState) : ℚ :=
  c.viewportHeight.getD (screenHOf c s1)

/-- Effective padding (source lines 290-291); the default is
`min(windowHeight, viewportHeight2) * 0.5` (`defaultPaddingRatio`). -/
def padding2Of (c : Cfg) (e : Env) (s1 : CState) : ℚ :=
  c.padding.getD (min e.windowHeight (vpH2Of c s1) * (1 / 2))

/-- `scrollTop + max(0, -viewportTop) - headerHeight` (lines 293-294). -/
def topOffsetOf (c : Cfg) (e : Env) : ℚ :=
  e.scrollTop + max 0 (-e.viewportTop) - c.headerHeight

/-- `scrollTop + min(viewportHeight2, windowHeight - viewportTop) -
headerHeight` (lines 297-298). -/
def bottomOffsetOf (c : Cfg) (e : Env) (s1 : CState) : ℚ :=
  e.scrollTop + min (vpH2Of c s1) (e.windowHeight - e.viewportTop) - c.headerHeight

/-- The candidate `newStartIdx` computed by `redraw()` (line 295). -/
def newStartOf (c : Cfg) (e : Env) (s1 : CState) : ℕ :=
  getStartIdx c s1 (topOffsetOf c e) (padding2Of c e s1)

/-- The candidate `newEndIdx` computed by `redraw()` (line 299):
clamped below by `newStartIdx`. -/
def newEndOf (c : Cfg) (e : Env) (s1 : CState) : ℕ :=
  max (newStartOf c e s1) (getEndIdx c s1 (bottomOffsetOf c e s1) (padding2Of c e s1))

/-- `redraw()` (source lines 281-311).  Returns the new state and the
emitted `updateHeight(newStartIdx, newEndIdx)` event, if any.  The
window state, `vlist` and `sheetStyle` are republished only when the
candidate indices differ from the cached ones. -/
def redraw (c : Cfg) (e : Env) (s : CState) : CState × Option (ℕ × ℕ) :=
  let s1 := afterUpdate c s
  let nS := newStartOf c e s1
  let nE := newEndOf c e s1
  let s2 := { s1 with screenHeight := screenHOf c s1, viewportHeight2 := vpH2Of c s1 }
  if nS ≠ s.startIdx ∨ nE ≠ s.endIdx then
    ({ s2 with
        startIdx := nS
        endIdx := nE
        startTop := getRowTop s1.rowInfo s1.listLength nS
        endTop := getRowTop s1.rowInfo s1.listLength nE
        vlist := (c.list.drop nS).take (nE - nS)
        sheetStyle := some (getRowTop s1.rowInfo s1.listLength nS) },
     some (nS, nE))
  else (s2, none)

/-! ## Raw JavaScript model of `update1`

For an out-of-range `rowIdx`, the source's `info[rowIdx*2]` reads
`undefined`, `diff` becomes `NaN`, `diff == 0` is false, and
`info[rowIdx*2] += diff` / `info[rowIdx*2+1] += diff` extend the array
with `NaN` entries.  `JsVal` models a JavaScript array slot: `none` is
`undefined`/`NaN` (both behave identically in the arithmetic and
comparisons `update1` performs), `some q` a finite number. -/

/-- A JavaScript array slot: `none` = `undefined` or `NaN`. -/
abbrev JsVal := Option ℚ

/-- Reading `info[i]`: out-of-range gives `undefined` (`none`). -/
def jsRead (l : List JsVal) (i : ℕ) : JsVal := (l.get? i).getD none

/-- JavaScript `+`/`-` on array slots: any `undefined`/`NaN` operand
yields `NaN`. -/
def jsAdd (a b : JsVal) : JsVal :=
  match a, b with
  | some x, some y => some (x + y)
  | _, _ => none

/-- JavaScript subtraction on array slots. -/
def jsSub (a b : JsVal) : JsVal :=
  match a, b with
  | some x, some y => some (x - y)
  | _, _ => none

/-- Writing `info[i] = v`: in range it overwrites; past the end it
extends the array, with intervening holes that read back as
`undefined`. -/
def jsWrite (l : List JsVal) (i : ℕ) (v : JsVal) : List JsVal :=
  if i < l.length then l.set i v
  else l ++ List.replicate (i - l.length) none ++ [v]

/-- The `while(bit < len)` loop of `update1` under raw JavaScript array
semantics. -/
def up1GoJS (len : ℕ) (diff : JsVal) : ℕ → ℕ → ℕ → List JsVal → List JsVal
  | 0, _, _, info => info
  | fuel + 1, e, ri, info =>
    if 2 ^ e < len then
      if ri &&& 2 ^ e = 0 then
        if len ≤ ri + 2 ^ e then info
        else
          up1GoJS len diff fuel (e + 1) (ri + 2 ^ e)
            (jsWrite info (2 * (ri + 2 ^ e) + 1)
              (jsAdd (jsRead info (2 * (ri + 2 ^ e) + 1)) diff))
      else up1GoJS len diff fuel (e + 1) ri info
    else info

/-- `update1(rowIdx)` under raw JavaScript semantics: exactly the source
lines 170-188, keeping `undefined`/`NaN` propagation and array extension
on out-of-range writes.  (`newHeight` is always a number: a missing row
or attribute falls back to `defaultHeight` via `??`.) -/
def update1JS (lst : List Row) (dh : ℚ) (len : ℕ) (rowIdx : ℕ) (info : List JsVal) : List JsVal :=
  let newHeight : JsVal := some (rowHeight lst dh rowIdx)
  let diff := jsSub newHeight (jsRead info (2 * rowIdx))
  if diff = some 0 then info
  else
    up1GoJS len diff len 0 rowIdx
      (jsWrite (jsWrite info (2 * rowIdx) (jsAdd (jsRead info (2 * rowIdx)) diff))
        (2 * rowIdx + 1) (jsAdd (jsRead (jsWrite info (2 * rowIdx) (jsAdd (jsRead info (2 * rowIdx)) diff)) (2 * rowIdx + 1)) diff))

/-! ## Concrete states used in the theorems -/

/-- The height index obtained by initialising on a one-row list
(`updateAll`, default height 20) and then growing the list to two rows
through `update()` (window still `[0,0)`).  Concretely it evaluates to
`([20, 20, 20, 20], 2)`: the accumulator entry of node 1, which should
cover rows 0 and 1 (`s_of 1 = 2`), was left untouched by the grow path
except for the new row's own contribution. -/
def grown2 : List ℚ × ℕ :=
  update (List.replicate 2 none) 20 0 0 (updateAll (List.replicate 1 none) 20, 1)

/-- The C5 scenario configuration: 5 rows, `defaultHeight = 20`,
`padding = 0`, `hysteresis = 0`, `viewportHeight = 40`, zero
header/footer. -/
def cfgC5 : Cfg := ⟨List.replicate 5 none, 20, 0, 0, some 40, some 0, 0⟩

/-- The C5 configuration after the measurement `h[0] = 50` has been
written back into the list. -/
def cfgC5b : Cfg := ⟨some 50 :: List.replicate 4 none, 20, 0, 0, some 40, some 0, 0⟩

/-- Scroll environment: `scrollTop = 0`, viewport at the window top,
browser window 1000px tall. -/
def envAt (scrollTop : ℚ) : Env := ⟨scrollTop, 0, 1000⟩

/-- Configuration for the hysteresis counterexample: 5 rows of height
100, `viewportHeight = 50`, `padding = 10`, `hysteresis = 1/2`. -/
def cfgC4 : Cfg := ⟨List.replicate 5 none, 100, 0, 0, some 50, some 10, 1 / 2⟩

/-- Configuration for the shrink counterexample: 5 rows of height 20,
`viewportHeight = 25`, `padding = 10`, `hysteresis = 1/2`. -/
def cfgC7 : Cfg := ⟨List.replicate 5 none, 20, 0, 0, some 25, some 10, 1 / 2⟩

/-- The same configuration after the list shrank to a single row. -/
def cfgC7b : Cfg := ⟨List.replicate 1 none, 20, 0, 0, some 25, some 10, 1 / 2⟩

/-- Configuration for the C6 witness: empty list, explicit zero
viewport height and padding. -/
def cfgC6 : Cfg := ⟨[], 20, 0, 0, some 0, some 0, 0⟩

/-- Environment for the C6 witness. -/
def envC6 : Env := ⟨0, 0, 0⟩

/-- A cached state for the C4 witness: window `[1, 2)` over five rows of
height 100 with `startTop = 100` and `endTop = 170`, both inside their
bands for `scrollTop = 110`. -/
def sC4w : CState :=
  ⟨[], none, 1, 2, 100, 170, 0, 0, updateAll (List.replicate 5 none) 100, 5⟩

/-! ## Claim theorems

The concrete evaluations below go through `decide`; `Rat.add`/`sub`/
`mul`/`inv` are restored to their normal reducibility for that (they are
`@[irreducible]` only to keep `simp`/`rw` from unfolding them). -/

attribute [local semireducible] Rat.add Rat.sub Rat.mul Rat.inv

/-! ## List access helpers -/

lemma getD_set_ne (l : List ℚ) (i j : ℕ) (v : ℚ) (h : i ≠ j) :
    (l.set i v).getD j 0 = l.getD j 0 := by
  simp [List.getD_eq_getElem?_getD, List.getElem?_set_ne h]

lemma getD_set_self (l : List ℚ) (i : ℕ) (v : ℚ) (h : i < l.length) :
    (l.set i v).getD i 0 = v := by
  simp [List.getD_eq_getElem?_getD, List.getElem?_set_eq_of_lt (a := v) h]

lemma getD_append_left (l l2 : List ℚ) (k : ℕ) (h : k < l.length) :
    (l ++ l2).getD k 0 = l.getD k 0 := by
  simp [List.getD_eq_getElem?_getD, List.getElem?_append_left h]

/-- Two lists agree if the first's prefix of length `n` matches the
second elementwise (`getD` view). -/
lemma take_eq_of_getD (l l2 : List ℚ) (n : ℕ) (hn : n ≤ l.length)
    (hlen : l2.length = n) (h : ∀ k, k < n → l.getD k 0 = l2.getD k 0) :
    l.take n = l2 := by
  apply List.ext_getElem
  · simp [hlen, Nat.min_eq_left hn]
  · intro i h1 h2
    have hi : i < n := by simpa [hlen] using h2
    have hil : i < l.length := lt_of_lt_of_le hi hn
    have := h i hi
    rw [List.getD_eq_getElem?_getD, List.getD_eq_getElem?_getD,
      List.getElem?_eq_getElem hil, List.getElem?_eq_getElem (hlen ▸ hi)] at this
    simpa [List.getElem_take] using this

/-! ## Bit arithmetic: the accumulator block size `s_of` -/

lemma two_mul_xor_succ (a : ℕ) : (2 * a) ^^^ (2 * a + 1) = 1 := by
  apply Nat.eq_of_testBit_eq
  intro i
  rw [Nat.testBit_xor]
  cases i with
  | zero =>
    have h1 : (2 * a) % 2 = 0 := by omega
    have h2 : (2 * a + 1) % 2 = 1 := by omega
    simp [Nat.testBit_zero, h1, h2]
  | succ i =>
    rw [Nat.testBit_succ, Nat.testBit_succ, Nat.testBit_succ]
    have e1 : 2 * a / 2 = a := by omega
    have e2 : (2 * a + 1) / 2 = a := by omega
    have e3 : 1 / 2 = 0 := by norm_num
    rw [e1, e2, e3]
    simp

lemma odd_xor_succ (j : ℕ) : (2 * j + 1) ^^^ (2 * j + 2) = 2 * (j ^^^ (j + 1)) + 1 := by
  apply Nat.eq_of_testBit_eq
  intro i
  rw [Nat.testBit_xor]
  cases i with
  | zero =>
    have h1 : (2 * j + 1) % 2 = 1 := by omega
    have h2 : (2 * j + 2) % 2 = 0 := by omega
    have h3 : (2 * (j ^^^ (j + 1)) + 1) % 2 = 1 := by omega
    simp [Nat.testBit_zero, h1, h2, h3]
  | succ i =>
    rw [Nat.testBit_succ, Nat.testBit_succ, Nat.testBit_succ]
    have e1 : (2 * j + 1) / 2 = j := by omega
    have e2 : (2 * j + 2) / 2 = j + 1 := by omega
    have e3 : (2 * (j ^^^ (j + 1)) + 1) / 2 = j ^^^ (j + 1) := by omega
    rw [e1, e2, e3, Nat.testBit_xor]

/-- `(m·2^e - 1) xor (m·2^e)` is the low mask `2^(e+1) - 1` when `m` is
odd. -/
lemma xor_succ_pow (e : ℕ) : ∀ a : ℕ,
    ((2 * a + 1) * 2 ^ e - 1) ^^^ ((2 * a + 1) * 2 ^ e) = 2 ^ (e + 1) - 1 := by
  induction e with
  | zero =>
    intro a
    have h2 : (2 * a + 1) * 2 ^ 0 - 1 = 2 * a := by omega
    have h1 : (2 * a + 1) * 2 ^ 0 = 2 * a + 1 := by norm_num
    rw [h2, h1, two_mul_xor_succ]
    norm_num
  | succ e ih =>
    intro a
    have hm : 0 < (2 * a + 1) * 2 ^ e :=
      Nat.mul_pos (by omega) Nat.one_le_two_pow
    have hps : (2 * a + 1) * 2 ^ (e + 1) = 2 * ((2 * a + 1) * 2 ^ e) := by
      rw [pow_succ]; ring
    have hj1 : (2 * a + 1) * 2 ^ (e + 1) - 1 = 2 * ((2 * a + 1) * 2 ^ e - 1) + 1 := by omega
    have hj2 : (2 * a + 1) * 2 ^ (e + 1) = 2 * ((2 * a + 1) * 2 ^ e - 1) + 2 := by omega
    have hsucc : (2 * a + 1) * 2 ^ e - 1 + 1 = (2 * a + 1) * 2 ^ e := by omega
    have hp2 : 2 ^ (e + 1 + 1) = 2 * 2 ^ (e + 1) := by rw [pow_succ]; ring
    have hlow : 1 ≤ 2 ^ (e + 1) := Nat.one_le_two_pow
    rw [hj1, hj2, odd_xor_succ, hsucc, ih a]
    omega

/-- The code's block size `s = ((i xor i+1) + 1) / 2` is `2^e` exactly
at the indices `i` with `i + 1 = (2a+1)·2^e`, i.e. `2^e` is the largest
power of two dividing `i + 1`. -/
lemma s_of_pow (e a : ℕ) : s_of ((2 * a + 1) * 2 ^ e - 1) = 2 ^ e := by
  have hm : 0 < (2 * a + 1) * 2 ^ e :=
    Nat.mul_pos (by omega) Nat.one_le_two_pow
  have hsucc : (2 * a + 1) * 2 ^ e - 1 + 1 = (2 * a + 1) * 2 ^ e := by omega
  have hp2 : 2 ^ (e + 1) = 2 * 2 ^ e := by rw [pow_succ]; ring
  have hlow : 1 ≤ 2 ^ (e + 1) := Nat.one_le_two_pow
  unfold s_of
  rw [hsucc, xor_succ_pow e a]
  omega

/-! ## `flog2` bound -/

lemma flog2Go_lt : ∀ fuel n, n ≤ fuel → n < 2 ^ (flog2Go fuel n + 1) := by
  intro fuel
  induction fuel with
  | zero =>
    intro n h
    have : n = 0 := by omega
    subst this
    simp [flog2Go]
  | succ f ih =>
    intro n h
    unfold flog2Go
    by_cases h1 : n ≤ 1
    · rw [if_pos h1]
      simp
      omega
    · rw [if_neg h1]
      have h2 : n / 2 ≤ f := by omega
      have h3 := ih (n / 2) h2
      have h4 : 2 ^ (flog2Go f (n / 2) + 1 + 1) = 2 * 2 ^ (flog2Go f (n / 2) + 1) := by
        rw [pow_succ]; ring
      omega

/-- `listLength < 2·bpt`: the descent of `getRowIdx` starts above every
row index. -/
lemma lt_two_pow_bptExp (len : ℕ) : len < 2 ^ bptExp len := by
  unfold bptExp
  by_cases h : len = 0
  · simp [h]
  · rw [if_neg h]
    exact flog2Go_lt len len le_rfl

/-! ## Monotonicity of the prefix sums -/

lemma leafSum_succ (info : List ℚ) (k : ℕ) :
    leafSum info (k + 1) = leafSum info k + leaf info k := rfl

lemma leafSum_mono {info : List ℚ} {len : ℕ}
    (hnn : ∀ j, j < len → 0 ≤ leaf info j) :
    ∀ b, b ≤ len → ∀ a, a ≤ b → leafSum info a ≤ leafSum info b := by
  intro b
  induction b with
  | zero =>
    intro _ a ha
    have : a = 0 := Nat.le_zero.mp ha
    rw [this]
  | succ n ih =>
    intro hb a ha
    rcases Nat.eq_or_lt_of_le ha with rfl | hlt
    · exact le_refl _
    · have h1 : a ≤ n := by omega
      have h2 := ih (by omega) a h1
      have h3 : 0 ≤ leaf info n := hnn n (by omega)
      rw [leafSum_succ]
      linarith

/-! ## Correctness of the `getRowIdx` descent on coherent states -/

/-- Invariant of the binary descent: entering a state `(eC, ri)` with
`2^eC ∣ ri`, `ri ≤ len`, `prefixSum ri ≤ off`, and everything at or
above `ri + 2^eC` already known to overshoot `off`, the descent ends at
the largest `j ≤ len` with `prefixSum j ≤ off`. -/
lemma griGo_spec {info : List ℚ} {len : ℕ} (hcoh : coherent info len)
    (hnn : ∀ j, j < len → 0 ≤ leaf info j) (off : ℚ) :
    ∀ eC ri, 2 ^ eC ∣ ri → ri ≤ len → leafSum info ri ≤ off →
      (∀ j, j ≤ len → ri + 2 ^ eC ≤ j → off < leafSum info j) →
      leafSum info (griGo info eC ri (off - leafSum info ri)) ≤ off ∧
        griGo info eC ri (off - leafSum info ri) ≤ len ∧
        ∀ j, j ≤ len → leafSum info j ≤ off →
          j ≤ griGo info eC ri (off - leafSum info ri) := by
  intro eC
  induction eC with
  | zero =>
    intro ri _ hri hle hhigh
    simp only [griGo]
    refine ⟨hle, hri, ?_⟩
    intro j hj hsum
    by_contra hc
    push_neg at hc
    have h20 : (2 : ℕ) ^ 0 = 1 := by norm_num
    exact absurd hsum (not_le.mpr (hhigh j hj (by omega)))
  | succ e ih =>
    intro ri hdvd hri hle hhigh
    have hone : 1 ≤ (2 : ℕ) ^ e := Nat.one_le_two_pow
    have hps : (2 : ℕ) ^ (e + 1) = 2 ^ e + 2 ^ e := by rw [pow_succ]; ring
    have hdvd1 : (2 : ℕ) ^ e ∣ ri := dvd_trans (pow_dvd_pow 2 (Nat.le_succ e)) hdvd
    rcases hget : info.get? ((ri + 2 ^ e) * 2 - 1) with _ | h
    · -- out-of-range node read: the descent skips this bit
      have hlen2 : info.length ≤ (ri + 2 ^ e) * 2 - 1 := List.get?_eq_none.mp hget
      have hout : len < ri + 2 ^ e := by
        rw [hcoh.1] at hlen2
        omega
      have hstep : griGo info (e + 1) ri (off - leafSum info ri)
          = griGo info e ri (off - leafSum info ri) := by
        simp only [griGo, hget]
      rw [hstep]
      refine ih ri hdvd1 hri hle ?_
      intro j hj hgej
      exact absurd hgej (by omega)
    · -- in-range node: its accumulator entry is the block sum
      have hlt : (ri + 2 ^ e) * 2 - 1 < info.length := by
        by_contra hcon
        push_neg at hcon
        rw [List.get?_eq_none.mpr hcon] at hget
        exact absurd hget (by simp)
      have hq : ri + 2 ^ e ≤ len := by
        rw [hcoh.1] at hlt
        omega
      obtain ⟨a, ha⟩ := hdvd
      have hqform : ri + 2 ^ e = (2 * a + 1) * 2 ^ e := by
        rw [ha, pow_succ]; ring
      have hblockidx : (ri + 2 ^ e) * 2 - 1 = 2 * (ri + 2 ^ e - 1) + 1 := by omega
      have hcoh2 := hcoh.2 (ri + 2 ^ e - 1) (by omega)
      have hs : s_of (ri + 2 ^ e - 1) = 2 ^ e := by
        rw [hqform]
        exact s_of_pow e a
      have hgetD : info.getD (2 * (ri + 2 ^ e - 1) + 1) 0 = h := by
        rw [← hblockidx, List.getD_eq_getElem?_getD, ← List.get?_eq_getElem?, hget]
        rfl
      have hh : h = leafSum info (ri + 2 ^ e) - leafSum info ri := by
        rw [← hgetD, hcoh2, hs]
        have h1 : ri + 2 ^ e - 1 + 1 = ri + 2 ^ e := by omega
        rw [h1]
        have h2 : ri + 2 ^ e - 2 ^ e = ri := by omega
        rw [h2]
      by_cases hcmp : h ≤ off - leafSum info ri
      · have hstep : griGo info (e + 1) ri (off - leafSum info ri)
            = griGo info e (ri + 2 ^ e) (off - leafSum info ri - h) := by
          simp only [griGo, hget, if_pos hcmp]
        have harith : off - leafSum info ri - h = off - leafSum info (ri + 2 ^ e) := by
          rw [hh]; ring
        have hle2 : leafSum info (ri + 2 ^ e) ≤ off := by
          rw [hh] at hcmp
          linarith
        rw [hstep, harith]
        refine ih (ri + 2 ^ e) ⟨2 * a + 1, by rw [hqform]; ring⟩ hq hle2 ?_
        intro j hj hgej
        exact hhigh j hj (by omega)
      · have hstep : griGo info (e + 1) ri (off - leafSum info ri)
            = griGo info e ri (off - leafSum info ri) := by
          simp only [griGo, hget, if_neg hcmp]
        have hoff : off < leafSum info (ri + 2 ^ e) := by
          rw [hh] at hcmp
          push_neg at hcmp
          linarith
        rw [hstep]
        refine ih ri hdvd1 hri hle ?_
        intro j hj hgej
        exact lt_of_lt_of_le hoff (leafSum_mono hnn j hj (ri + 2 ^ e) hgej)

/-! ## Write footprint of `update1` and `updateRange`

`update1 rowIdx` writes only the two cells of row `rowIdx` and the
accumulator cells (odd positions) of strictly higher rows; `updateRange`
therefore never touches positions below `2·lo`.  These facts drive the
resize round-trip analysis. -/

lemma bump_length (info : List ℚ) (k : ℕ) (d : ℚ) :
    (bump info k d).length = info.length := List.length_set info k _

lemma bump_getD_ne (info : List ℚ) (k j : ℕ) (d : ℚ) (h : k ≠ j) :
    (bump info k d).getD j 0 = info.getD j 0 := getD_set_ne info k j _ h

lemma up1Go_length (len : ℕ) (diff : ℚ) :
    ∀ fuel e ri info, (up1Go len diff fuel e ri info).length = info.length := by
  intro fuel
  induction fuel with
  | zero => intro e ri info; rfl
  | succ n ih =>
    intro e ri info
    unfold up1Go
    by_cases h1 : 2 ^ e < len
    · rw [if_pos h1]
      by_cases h2 : ri &&& 2 ^ e = 0
      · rw [if_pos h2]
        by_cases h3 : len ≤ ri + 2 ^ e
        · rw [if_pos h3]
        · rw [if_neg h3, ih, bump_length]
      · rw [if_neg h2]
        exact ih (e + 1) ri info
    · rw [if_neg h1]

/-- The propagation loop writes only odd positions of rows above its
starting row. -/
lemma up1Go_getD (len : ℕ) (diff : ℚ) :
    ∀ fuel e ri info k, k % 2 = 0 ∨ k ≤ 2 * ri + 1 →
      (up1Go len diff fuel e ri info).getD k 0 = info.getD k 0 := by
  intro fuel
  induction fuel with
  | zero => intro e ri info k _; rfl
  | succ n ih =>
    intro e ri info k hk
    unfold up1Go
    by_cases h1 : 2 ^ e < len
    · rw [if_pos h1]
      by_cases h2 : ri &&& 2 ^ e = 0
      · rw [if_pos h2]
        by_cases h3 : len ≤ ri + 2 ^ e
        · rw [if_pos h3]
        · rw [if_neg h3]
          have hone : 1 ≤ (2 : ℕ) ^ e := Nat.one_le_two_pow
          rw [ih (e + 1) (ri + 2 ^ e) _ k (by omega)]
          exact bump_getD_ne info _ k diff (by omega)
      · rw [if_neg h2]
        exact ih (e + 1) ri info k hk
    · rw [if_neg h1]

lemma update1_length (lst : List Row) (dh : ℚ) (len r : ℕ) (info : List ℚ) :
    (update1 lst dh len r info).length = info.length := by
  simp only [update1]
  by_cases h : rowHeight lst dh r - info.getD (2 * r) 0 = 0
  · rw [if_pos h]
  · rw [if_neg h, up1Go_length, bump_length, bump_length]

lemma update1_getD_low (lst : List Row) (dh : ℚ) (len r : ℕ) (info : List ℚ)
    (k : ℕ) (hk : k < 2 * r) :
    (update1 lst dh len r info).getD k 0 = info.getD k 0 := by
  simp only [update1]
  by_cases h : rowHeight lst dh r - info.getD (2 * r) 0 = 0
  · rw [if_pos h]
  · rw [if_neg h, up1Go_getD _ _ _ _ _ _ k (Or.inr (by omega)),
      bump_getD_ne _ _ _ _ (by omega), bump_getD_ne _ _ _ _ (by omega)]

/-- A point update leaves every other row's stored height unchanged. -/
lemma update1_leaf_other (lst : List Row) (dh : ℚ) (len r : ℕ) (info : List ℚ)
    (j : ℕ) (hj : j ≠ r) :
    (update1 lst dh len r info).getD (2 * j) 0 = info.getD (2 * j) 0 := by
  simp only [update1]
  by_cases h : rowHeight lst dh r - info.getD (2 * r) 0 = 0
  · rw [if_pos h]
  · rw [if_neg h, up1Go_getD _ _ _ _ _ _ _ (Or.inl (by omega)),
      bump_getD_ne _ _ _ _ (by omega), bump_getD_ne _ _ _ _ (by omega)]

/-- A point update stores the list's current height at its own row. -/
lemma update1_leaf_self (lst : List Row) (dh : ℚ) (len r : ℕ) (info : List ℚ)
    (h : 2 * r < info.length) :
    (update1 lst dh len r info).getD (2 * r) 0 = rowHeight lst dh r := by
  simp only [update1]
  by_cases hd : rowHeight lst dh r - info.getD (2 * r) 0 = 0
  · rw [if_pos hd]
    linarith [sub_eq_zero.mp hd]
  · rw [if_neg hd, up1Go_getD _ _ _ _ _ _ _ (Or.inl (by omega)),
      bump_getD_ne _ _ _ _ (by omega)]
    unfold bump
    rw [getD_set_self _ _ _ h]
    ring

/-- `update1` at a row whose stored height already equals the list's
height is the `diff == 0` early return. -/
lemma update1_noop (lst : List Row) (dh : ℚ) (len r : ℕ) (info : List ℚ)
    (h : rowHeight lst dh r = info.getD (2 * r) 0) :
    update1 lst dh len r info = info := by
  simp only [update1]
  rw [h, sub_self, if_pos rfl]

lemma foldl_update1_length (lst : List Row) (dh : ℚ) (len : ℕ) :
    ∀ (l : List ℕ) (info : List ℚ),
      (l.foldl (fun inf ri => update1 lst dh len ri inf) info).length = info.length := by
  intro l
  induction l with
  | nil => intro info; rfl
  | cons r t ih =>
    intro info
    simp only [List.foldl_cons]
    rw [ih, update1_length]

lemma foldl_update1_getD_low (lst : List Row) (dh : ℚ) (len : ℕ) :
    ∀ (l : List ℕ) (info : List ℚ) (k : ℕ), (∀ ri, ri ∈ l → k < 2 * ri) →
      (l.foldl (fun inf ri => update1 lst dh len ri inf) info).getD k 0 = info.getD k 0 := by
  intro l
  induction l with
  | nil => intro info k _; rfl
  | cons r t ih =>
    intro info k h
    simp only [List.foldl_cons]
    rw [ih _ k (fun ri hri => h ri (List.mem_cons_of_mem r hri)),
      update1_getD_low _ _ _ _ _ k (h r (List.mem_cons_self r t))]

lemma foldl_update1_leaf (lst : List Row) (dh : ℚ) (len : ℕ) :
    ∀ (cnt lo : ℕ) (info : List ℚ) (j : ℕ), lo ≤ j → j < lo + cnt →
      2 * j < info.length →
      ((List.range' lo cnt).foldl (fun inf ri => update1 lst dh len ri inf) info).getD
        (2 * j) 0 = rowHeight lst dh j := by
  intro cnt
  induction cnt with
  | zero => intro lo info j h1 h2 _; omega
  | succ c ih =>
    intro lo info j h1 h2 h3
    rw [List.range'_succ lo c 1]
    simp only [List.foldl_cons]
    rcases Nat.eq_or_lt_of_le h1 with rfl | hlt
    · rw [foldl_update1_getD_low lst dh len _ _ _
        (fun ri hri => by have := (List.mem_range'_1.mp hri).1; omega)]
      exact update1_leaf_self lst dh len lo info h3
    · exact ih (lo + 1) (update1 lst dh len lo info) j (by omega) (by omega)
        (by rw [update1_length]; exact h3)

lemma foldl_update1_noop (lst : List Row) (dh : ℚ) (len : ℕ) :
    ∀ (cnt lo : ℕ) (info : List ℚ),
      (∀ j, lo ≤ j → j < lo + cnt → rowHeight lst dh j = info.getD (2 * j) 0) →
      (List.range' lo cnt).foldl (fun inf ri => update1 lst dh len ri inf) info = info := by
  intro cnt
  induction cnt with
  | zero => intro lo info _; rfl
  | succ c ih =>
    intro lo info h
    rw [List.range'_succ lo c 1]
    simp only [List.foldl_cons]
    rw [update1_noop lst dh len lo info (h lo le_rfl (by omega))]
    exact ih (lo + 1) info (fun j hj1 hj2 => h j (by omega) (by omega))

lemma updateRange_length (lst : List Row) (dh : ℚ) (len lo hi : ℕ) (info : List ℚ) :
    (updateRange lst dh len lo hi info).length = info.length :=
  foldl_update1_length lst dh len _ info

lemma updateRange_getD_low (lst : List Row) (dh : ℚ) (len lo hi : ℕ) (info : List ℚ)
    (k : ℕ) (hk : k < 2 * lo) :
    (updateRange lst dh len lo hi info).getD k 0 = info.getD k 0 :=
  foldl_update1_getD_low lst dh len _ info k
    (fun ri hri => by have := (List.mem_range'_1.mp hri).1; omega)

lemma updateRange_noop (lst : List Row) (dh : ℚ) (len lo hi : ℕ) (info : List ℚ)
    (h : ∀ j, lo ≤ j → j < min hi len → rowHeight lst dh j = info.getD (2 * j) 0) :
    updateRange lst dh len lo hi info = info :=
  foldl_update1_noop lst dh len _ lo info (fun j h1 h2 => h j h1 (by omega))

lemma updateRange_leaf (lst : List Row) (dh : ℚ) (len lo hi : ℕ) (info : List ℚ)
    (j : ℕ) (h1 : lo ≤ j) (h2 : j < min hi len) (h3 : 2 * j < info.length) :
    (updateRange lst dh len lo hi info).getD (2 * j) 0 = rowHeight lst dh j :=
  foldl_update1_leaf lst dh len _ lo info j h1 (by omega) h3

/-! ## The skip branch of `redraw` -/

/-- When the candidate window indices match the cached ones, `redraw`
takes its else-branch: window state, `vlist` and `sheetStyle` are left
untouched and nothing is emitted. -/
lemma redraw_skip (c : Cfg) (e : Env) (s : CState)
    (h1 : newStartOf c e (afterUpdate c s) = s.startIdx)
    (h2 : newEndOf c e (afterUpdate c s) = s.endIdx) :
    (redraw c e s).1.startIdx = s.startIdx ∧
      (redraw c e s).1.endIdx = s.endIdx ∧
      (redraw c e s).1.startTop = s.startTop ∧
      (redraw c e s).1.endTop = s.endTop ∧
      (redraw c e s).1.vlist = s.vlist ∧
      (redraw c e s).1.sheetStyle = s.sheetStyle ∧
      (redraw c e s).2 = none := by
  unfold redraw
  simp only [h1, h2, ne_eq, not_true_eq_false, false_or, or_self, if_false]
  simp [afterUpdate]

/-! ## C1: prefix-sum correctness over update/resize sequences -/

/-- C1.  The claim fails on the code: growing the list breaks the
accumulator.  Starting from the index of a one-row list (stored heights
`[20]`) and resizing to two rows via `update()` (both heights 20), the
resulting `rowInfo` is `[20, 20, 20, 20]` and `getRowTop(2) = 20`,
while the direct sum of the stored row heights `h[0] + h[1]` is `40`.
The grow path appends zeroed accumulator entries and only runs
`update1` on the new rows, so the accumulator block of node 1, which
covers rows 0 and 1, never receives row 0's height — contradicting the
`rowInfo` documentation (source lines 118-128) and the component's own
`checkRowInfo` consistency check. -/
theorem C1_grow_breaks_prefix_sums :
    grown2.1 = [20, 20, 20, 20] ∧ grown2.2 = 2 ∧
      getRowTop grown2.1 grown2.2 2 = 20 ∧
      leafSum grown2.1 2 = 40 := by
  decide

/-! ## C2: locate correctness -/

/-- C2.  The claim fails on the code, on a state reachable by a resize:
on `grown2` (stored heights `h = [20, 20]`, so `prefixSum = [0, 20, 40]`)
the offset `25` satisfies `0 ≤ 25 < prefixSum(2) = 40` and the unique
index `i` with `prefixSum(i) ≤ 25 < prefixSum(i+1)` is `1`, but
`getRowIdx(25)` returns `2` (= N, the past-end sentinel), because the
accumulator entry it descends through was corrupted by the grow path. -/
theorem C2_locate_wrong_after_grow :
    getRowIdx grown2.1 grown2.2 25 = 2 ∧
      leafSum grown2.1 1 ≤ 25 ∧ (25 : ℚ) < leafSum grown2.1 2 ∧
      leafSum grown2.1 2 = 40 := by
  decide

/-! ## C3: accumulator structure invariant -/

/-- C3.  The claim fails on the code: after the mutating operation
`update()` on a list change from one row to two rows, `rowInfo` is
`[20, 20, 20, 20]`; at `i = 1` the block size is `s_of 1 = 2`, so
`rowInfo[3]` should equal `h[0] + h[1] = 40`, but it is `20` — the
documented invariant (and hence `coherent`) is violated. -/
theorem C3_invariant_broken_after_grow :
    grown2.1.getD 3 0 = 20 ∧ s_of 1 = 2 ∧
      leafSum grown2.1 2 - leafSum grown2.1 0 = 40 ∧
      ¬ coherent grown2.1 grown2.2 := by
  decide

/-! ## C5: end-to-end scenario -/

/-- C5 counterexample.  With exactly the claimed parameters (N = 5,
`defaultHeight = 20`, `padding = 0`, `hysteresis = 0`,
`viewportHeight = 40`, zero header/footer), the initial `redraw()` at
`scrollTop = 0` yields `endIdx = 3`, not `2` as claimed: the bottom
offset 40 falls exactly on the boundary of row 2, `getRowIdx(40) = 2`,
and `getEndIdx` adds one. -/
theorem C5_initial_endIdx_is_three :
    (redraw cfgC5 (envAt 0) initialState).1.startIdx = 0 ∧
      (redraw cfgC5 (envAt 0) initialState).1.endIdx = 3 := by
  decide

/-- C5 amended.  The scenario as the code actually computes it: the
initial `redraw()` at `scrollTop = 0` yields the window `[0, 3)`; after
the measurement `h[0] = 50` is written into the list, `redraw()` at
`scrollTop = 0` shrinks the window to `[0, 1)`; `redraw()` at
`scrollTop = 90` then yields `[3, 5)` (with `h[0] = 50` the prefix sums
are `[0, 50, 70, 90, 110, 130]`, so offset 90 lies in row 3, and the
bottom offset 130 is past the total height, giving the past-end
index 5). -/
theorem C5_scenario_corrected :
    (redraw cfgC5 (envAt 0) initialState).2 = some (0, 3) ∧
      (redraw cfgC5b (envAt 0) (redraw cfgC5 (envAt 0) initialState).1).2 = some (0, 1) ∧
      (redraw cfgC5b (envAt 90)
        (redraw cfgC5b (envAt 0) (redraw cfgC5 (envAt 0) initialState).1).1).2 = some (3, 5) := by
  decide

/-! ## C4: hysteresis suppression -/

/-- C4 counterexample.  Rows of height 100, `padding2 = 10`,
`hysteresis = 1/2`, so `padding·hysteresis = 5`.  A first `redraw()` at
`scrollTop = 109` establishes the window `[0, 2)` with
`startTop = 0`; a second `redraw()` at `scrollTop = 113` — a scroll
delta of `4 < 5` — nevertheless moves the window to `[1, 2)` and emits
a new `updateHeight` request: the hysteresis band is centred on the
cached `startTop = 0`, which is far below `topOffset - padding2`, so
the boundary is relocated and lands on row 1. -/
theorem C4_small_delta_moves_window :
    (redraw cfgC4 (envAt 109) initialState).2 = some (0, 2) ∧
      (redraw cfgC4 (envAt 113) (redraw cfgC4 (envAt 109) initialState).1).2 = some (1, 2) ∧
      (113 - 109 : ℚ) < 10 * (1 / 2) := by
  decide

/-! ## C7: window-range invariant -/

/-- C7.  The claim fails on the code: rows of height 20,
`viewportHeight = 25`, `padding = 10`, `hysteresis = 1/2`.  A first
`redraw()` establishes the window `[0, 2)` with `endTop = 40`, which
sits exactly on the upper edge of the end hysteresis band
`[30, 40]`.  After the list shrinks to a single row, the next
`redraw()` finds `endTop` still inside the band, keeps the stale
`endIdx = 2` and publishes nothing: the completed redraw leaves
`endIdx = 2 > N = 1`, contradicting the documented window invariant
`startIdx ≤ endIdx ≤ N` and the meaning of `endIdx` ("last index + 1 of
the visible portion of list"). -/
theorem C7_endIdx_exceeds_length_after_shrink :
    (redraw cfgC7b (envAt 0) (redraw cfgC7 (envAt 0) initialState).1).2 = none ∧
      (redraw cfgC7b (envAt 0) (redraw cfgC7 (envAt 0) initialState).1).1.listLength = 1 ∧
      (redraw cfgC7b (envAt 0) (redraw cfgC7 (envAt 0) initialState).1).1.endIdx = 2 := by
  decide

/-! ## C6: no-change frame condition -/

/-- C6.  Whenever `redraw()` computes `newStartIdx = startIdx` and
`newEndIdx = endIdx`, the window state (`startIdx`, `endIdx`,
`startTop`, `endTop`), `vlist` and `sheetStyle` are all left unchanged
and no `updateHeight` event is emitted: all those writes sit inside the
`if(newStartIdx != startIdx.value || newEndIdx != endIdx.value)` guard. -/
theorem C6_no_change_frame (c : Cfg) (e : Env) (s : CState)
    (h1 : newStartOf c e (afterUpdate c s) = s.startIdx)
    (h2 : newEndOf c e (afterUpdate c s) = s.endIdx) :
    (redraw c e s).1.startIdx = s.startIdx ∧
      (redraw c e s).1.endIdx = s.endIdx ∧
      (redraw c e s).1.startTop = s.startTop ∧
      (redraw c e s).1.endTop = s.endTop ∧
      (redraw c e s).1.vlist = s.vlist ∧
      (redraw c e s).1.sheetStyle = s.sheetStyle ∧
      (redraw c e s).2 = none :=
  redraw_skip c e s h1 h2

/-- Witness for C6 at a concrete input: on the empty list the candidate
indices equal the cached ones and the redraw emits nothing. -/
theorem C6_no_change_frame_witness :
    newStartOf cfgC6 envC6 (afterUpdate cfgC6 initialState) = initialState.startIdx ∧
      newEndOf cfgC6 envC6 (afterUpdate cfgC6 initialState) = initialState.endIdx ∧
      (redraw cfgC6 envC6 initialState).2 = none :=
  ⟨by decide, by decide,
    (C6_no_change_frame cfgC6 envC6 initialState (by decide) (by decide)).2.2.2.2.2.2⟩

/-! ## C4 (amended): suppression inside the hysteresis bands -/

/-- `getStartIdx` keeps the cached index when `startTop` lies inside the
hysteresis band. -/
lemma getStartIdx_band (c : Cfg) (s : CState) (t p2 : ℚ)
    (h1 : t - p2 * (1 + c.hysteresis) ≤ s.startTop)
    (h2 : s.startTop ≤ t - p2 * (1 - c.hysteresis)) :
    getStartIdx c s t p2 = s.startIdx := by
  unfold getStartIdx
  rw [if_neg]
  push_neg
  exact ⟨h1, h2⟩

/-- `getEndIdx` keeps the cached index when `endTop` lies inside the
hysteresis band. -/
lemma getEndIdx_band (c : Cfg) (s : CState) (b p2 : ℚ)
    (h1 : b + p2 * (1 - c.hysteresis) ≤ s.endTop)
    (h2 : s.endTop ≤ b + p2 * (1 + c.hysteresis)) :
    getEndIdx c s b p2 = s.endIdx := by
  unfold getEndIdx
  rw [if_neg]
  push_neg
  exact ⟨h1, h2⟩

/-- C4, amended.  The claim's premise "scroll delta smaller than
`padding·hysteresis`" does not guarantee suppression (see the
counterexample): the source checks the band around the *cached*
boundary offsets.  What holds is: if the cached `startTop` lies inside
`[topOffset - padding2·(1+hysteresis), topOffset - padding2·(1-hysteresis)]`
and the cached `endTop` inside
`[bottomOffset + padding2·(1-hysteresis), bottomOffset + padding2·(1+hysteresis)]`
(and `startIdx ≤ endIdx`), then `redraw()` keeps the identical window
indices, leaves the window state, `vlist` and `sheetStyle` untouched,
and emits no `updateHeight` request. -/
theorem C4_band_suppression (c : Cfg) (e : Env) (s : CState)
    (hidx : s.startIdx ≤ s.endIdx)
    (hs1 : topOffsetOf c e - padding2Of c e (afterUpdate c s) * (1 + c.hysteresis) ≤ s.startTop)
    (hs2 : s.startTop ≤ topOffsetOf c e - padding2Of c e (afterUpdate c s) * (1 - c.hysteresis))
    (he1 : bottomOffsetOf c e (afterUpdate c s)
        + padding2Of c e (afterUpdate c s) * (1 - c.hysteresis) ≤ s.endTop)
    (he2 : s.endTop ≤ bottomOffsetOf c e (afterUpdate c s)
        + padding2Of c e (afterUpdate c s) * (1 + c.hysteresis)) :
    (redraw c e s).1.startIdx = s.startIdx ∧
      (redraw c e s).1.endIdx = s.endIdx ∧
      (redraw c e s).1.startTop = s.startTop ∧
      (redraw c e s).1.endTop = s.endTop ∧
      (redraw c e s).1.vlist = s.vlist ∧
      (redraw c e s).1.sheetStyle = s.sheetStyle ∧
      (redraw c e s).2 = none := by
  have hnS : newStartOf c e (afterUpdate c s) = s.startIdx :=
    getStartIdx_band c (afterUpdate c s) _ _ hs1 hs2
  have hnE : newEndOf c e (afterUpdate c s) = s.endIdx := by
    unfold newEndOf
    rw [hnS, getEndIdx_band c (afterUpdate c s) _ _ he1 he2]
    exact Nat.max_eq_right hidx
  exact redraw_skip c e s hnS hnE

/-- Witness for the amended C4 at a concrete input. -/
theorem C4_band_suppression_witness :
    sC4w.startIdx ≤ sC4w.endIdx ∧
      topOffsetOf cfgC4 (envAt 110)
          - padding2Of cfgC4 (envAt 110) (afterUpdate cfgC4 sC4w) * (1 + cfgC4.hysteresis)
        ≤ sC4w.startTop ∧
      (redraw cfgC4 (envAt 110) sC4w).2 = none :=
  ⟨by decide, by decide,
    (C4_band_suppression cfgC4 (envAt 110) sC4w (by decide) (by decide) (by decide)
      (by decide) (by decide)).2.2.2.2.2.2⟩

/-! ## C8: resize round-trip -/

/-- C8 counterexample.  As stated, the claim fails, because the trailing
`updateRange(startIdx, endIdx)` of `update()` re-reads list heights for
the rows of the current window.  Starting from the index `[20, 20]`
(N = 1, stored height 20) with window `[0, 1)`: growing via `update()`
with a 2-row list whose heights are 30 and then shrinking back via
`update()` with a 1-row list of height 30 ends with `rowInfo = [30, 30]`
— `getRowTop(1)` is `30` after the round trip, while it was `20`
before. -/
theorem C8_roundtrip_fails_with_stale_window :
    update [some 30] 20 0 1 (update [some 30, some 30] 20 0 1 ([20, 20], 1)) =
        ([30, 30], 1) ∧
      getRowTop [30, 30] 1 1 = 30 ∧ getRowTop [20, 20] 1 1 = 20 := by
  decide

/-- C8, amended.  The round trip `update()` (grow to `M ≥ N`) then
`update()` (shrink back to `N`) restores the height index exactly —
`rowInfo`, `listLength`, and hence every prefix sum `getRowTop(k)`,
`k ≤ N` — provided the point updates that `update()` re-runs on the
current window `[startIdx, endIdx)` are no-ops, i.e. the lists' heights
for window rows below `N` equal the stored heights (in particular when
the window is empty): grow only writes positions `≥ 2N` and shrink
truncates exactly those. -/
theorem C8_roundtrip_restores (info0 : List ℚ) (N M : ℕ) (L1 L2 : List Row)
    (dh : ℚ) (s e : ℕ)
    (hN : 0 < N) (hlen : info0.length = 2 * N)
    (hL1 : L1.length = M) (hL2 : L2.length = N) (hNM : N ≤ M)
    (hw1 : ∀ ri, s ≤ ri → ri < min e N → rowHeight L1 dh ri = info0.getD (2 * ri) 0)
    (hw2 : ∀ ri, s ≤ ri → ri < min e N → rowHeight L2 dh ri = info0.getD (2 * ri) 0) :
    update L2 dh s e (update L1 dh s e (info0, N)) = (info0, N) ∧
      ∀ k, k ≤ N →
        getRowTop (update L2 dh s e (update L1 dh s e (info0, N))).1
            (update L2 dh s e (update L1 dh s e (info0, N))).2 k
          = getRowTop info0 N k := by
  have hmain : update L2 dh s e (update L1 dh s e (info0, N)) = (info0, N) := by
    rcases Nat.eq_or_lt_of_le hNM with rfl | hlt
    · -- M = N: both calls take the equal-length branch
      have h1 : update L1 dh s e (info0, N) = (updateRange L1 dh N s e info0, N) := by
        simp only [update, hL1]
        rw [if_neg (by omega), if_neg (by omega), if_neg (by omega)]
      have h2 : update L2 dh s e (info0, N) = (updateRange L2 dh N s e info0, N) := by
        simp only [update, hL2]
        rw [if_neg (by omega), if_neg (by omega), if_neg (by omega)]
      rw [h1, updateRange_noop L1 dh N s e info0 hw1, h2,
        updateRange_noop L2 dh N s e info0 hw2]
    · -- N < M: grow then shrink
      set G0 : List ℚ := info0 ++ List.replicate ((M - N) * 2) 0 with hG0
      set G1 : List ℚ := updateRange L1 dh M N M G0 with hG1
      have hG0len : G0.length = 2 * M := by
        rw [hG0, List.length_append, List.length_replicate, hlen]
        omega
      have hG1len : G1.length = 2 * M := by
        rw [hG1, updateRange_length, hG0len]
      have hlow : ∀ k, k < 2 * N → G1.getD k 0 = info0.getD k 0 := by
        intro k hk
        rw [hG1, updateRange_getD_low L1 dh M N M G0 k (by omega), hG0,
          getD_append_left _ _ k (by omega)]
      have hnew : ∀ j, N ≤ j → j < M → G1.getD (2 * j) 0 = rowHeight L1 dh j := by
        intro j hj1 hj2
        rw [hG1]
        exact updateRange_leaf L1 dh M N M G0 j hj1 (by omega) (by omega)
      have h1 : update L1 dh s e (info0, N) = (updateRange L1 dh M s e G1, M) := by
        simp only [update, hL1]
        rw [if_neg (by omega), if_neg (by omega), if_pos hlt]
      have hT1 : updateRange L1 dh M s e G1 = G1 := by
        apply updateRange_noop
        intro j hj1 hj2
        rcases Nat.lt_or_ge j N with hjN | hjN
        · rw [hlow (2 * j) (by omega)]
          exact hw1 j hj1 (by omega)
        · rw [hnew j hjN (by omega)]
      have h2 : update L2 dh s e (G1, M) = (updateRange L2 dh N s e (G1.take (2 * N)), N) := by
        simp only [update, hL2]
        rw [if_neg (by omega), if_pos (by omega)]
      have htake : G1.take (2 * N) = info0 :=
        take_eq_of_getD G1 info0 (2 * N) (by omega) hlen hlow
      rw [h1, hT1, h2, htake, updateRange_noop L2 dh N s e info0 hw2]
  exact ⟨hmain, fun k _ => by rw [hmain]⟩

/-- Witness for the amended C8 at a concrete input: `N = 1`, `M = 2`,
empty window, heights restored exactly. -/
theorem C8_roundtrip_restores_witness :
    (0 : ℕ) < 1 ∧ ([20, 20] : List ℚ).length = 2 * 1 ∧
      ([some 30, none] : List Row).length = 2 ∧
      ([some 20] : List Row).length = 1 ∧ 1 ≤ 2 ∧
      update [some 20] 20 0 0 (update [some 30, none] 20 0 0 ([20, 20], 1)) = ([20, 20], 1) :=
  ⟨by decide, by decide, by decide, by decide, by decide,
    (C8_roundtrip_restores [20, 20] 1 2 [some 30, none] [some 20] 20 0 0
      (by decide) (by decide) (by decide) (by decide) (by decide)
      (fun ri _ h2 => absurd h2 (by omega))
      (fun ri _ h2 => absurd h2 (by omega))).1⟩

/-! ## C9: out-of-range point update -/

/-- C9 counterexample.  Under raw JavaScript semantics, `update1` on the
out-of-range index `1` of a one-row index (`rowInfo = [20, 20]`) is not
a no-op: `diff` is `NaN`, the `diff == 0` short-circuit does not fire,
and the two `+=` writes extend `rowInfo` to `[20, 20, NaN, NaN]`. -/
theorem C9_out_of_range_update_mutates :
    update1JS [none] 20 1 1 [some 20, some 20] ≠ [some 20, some 20] ∧
      update1JS [none] 20 1 1 [some 20, some 20] =
        [some 20, some 20, none, none] := by
  decide

/-- For a starting row at or past `listLength`, the propagation loop of
`update1` never writes: any `ri += bit` immediately trips the
`ri >= len` early return before the write. -/
lemma up1GoJS_ge (len : ℕ) (diff : JsVal) :
    ∀ fuel e ri info, len ≤ ri → up1GoJS len diff fuel e ri info = info := by
  intro fuel
  induction fuel with
  | zero => intro e ri info _; rfl
  | succ n ih =>
    intro e ri info h
    unfold up1GoJS
    by_cases h1 : 2 ^ e < len
    · rw [if_pos h1]
      by_cases h2 : ri &&& 2 ^ e = 0
      · rw [if_pos h2, if_pos (Nat.le_trans h (Nat.le_add_right ri (2 ^ e)))]
      · rw [if_neg h2]
        exact ih (e + 1) ri info h
    · rw [if_neg h1]

/-- C9, amended.  An out-of-range point update is not a no-op, but its
damage is confined past the live part of the array: for `rowIdx ≥ N`
(with `rowInfo` of length `2N`), `update1` extends `rowInfo` with
`NaN`/`undefined` slots at positions `2·rowIdx` and `2·rowIdx + 1`
(holes in between), and every existing entry — hence every prefix sum
`getRowTop(k)`, `k ≤ N`, which reads only positions `< 2N` — is
unchanged. -/
theorem C9_out_of_range_update_appends_only (lst : List Row) (dh : ℚ)
    (len rowIdx : ℕ) (info : List JsVal)
    (hlen : info.length = 2 * len) (hge : len ≤ rowIdx) :
    update1JS lst dh len rowIdx info =
        info ++ List.replicate (2 * rowIdx - 2 * len) none ++ [none, none] ∧
      (update1JS lst dh len rowIdx info).take (2 * len) = info := by
  have hidx : info.length ≤ 2 * rowIdx := by omega
  have hread : jsRead info (2 * rowIdx) = none := by
    unfold jsRead
    rw [List.get?_eq_none.mpr hidx]
    rfl
  have hmain : update1JS lst dh len rowIdx info =
      info ++ List.replicate (2 * rowIdx - 2 * len) none ++ [none, none] := by
    unfold update1JS
    rw [hread]
    simp only [jsSub, jsAdd]
    rw [if_neg (by simp)]
    have hw1 : jsWrite info (2 * rowIdx) none =
        info ++ List.replicate (2 * rowIdx - 2 * len) none ++ [none] := by
      unfold jsWrite
      rw [if_neg (by omega), hlen]
    rw [hw1]
    set A : List JsVal := info ++ List.replicate (2 * rowIdx - 2 * len) none ++ [none] with hA
    have hAlen : A.length = 2 * rowIdx + 1 := by
      simp [hA, List.length_append, List.length_replicate]
      omega
    have hreadA : jsRead A (2 * rowIdx + 1) = none := by
      unfold jsRead
      rw [List.get?_eq_none.mpr (by omega : A.length ≤ 2 * rowIdx + 1)]
      rfl
    rw [hreadA]
    simp only [jsAdd]
    have hw2 : jsWrite A (2 * rowIdx + 1) none = A ++ [none] := by
      unfold jsWrite
      rw [if_neg (by omega), hAlen]
      simp
    rw [hw2, up1GoJS_ge len none len 0 rowIdx (A ++ [none]) hge, hA]
    simp
  refine ⟨hmain, ?_⟩
  rw [hmain, ← hlen, List.append_assoc, List.take_left]

/-! ## C10: `getRowIdx` returns the largest index whose prefix sum is
below the offset -/

/-- C10.  On a height index satisfying the documented accumulator
invariant (`coherent`), with non-negative stored heights: for every
offset with `0 ≤ offset < total height`, `getRowIdx(offset)` returns
the largest index `i` with `prefixSum(i) ≤ offset` (prefix sums
recomputed from the stored heights).  In particular the descent's
non-strict comparison `rest >= h` steps past every zero-height block:
among several indices sharing the same prefix sum equal to `offset`,
the greatest is returned. -/
theorem C10_locate_returns_largest (info : List ℚ) (len : ℕ) (off : ℚ)
    (hcoh : coherent info len) (hnn : ∀ j, j < len → 0 ≤ leaf info j)
    (h0 : 0 ≤ off) (h1 : off < leafSum info len) :
    ∃ i : ℕ, getRowIdx info len off = (i : ℤ) ∧ i < len ∧
      leafSum info i ≤ off ∧ ∀ j, j ≤ len → leafSum info j ≤ off → j ≤ i := by
  have hzero : leafSum info 0 = 0 := rfl
  have hbpt := lt_two_pow_bptExp len
  have hinit : ∀ j, j ≤ len → 0 + 2 ^ bptExp len ≤ j → off < leafSum info j := by
    intro j hj hge
    exact absurd hge (by omega)
  have hspec := griGo_spec hcoh hnn off (bptExp len) 0 (dvd_zero _) (Nat.zero_le _)
    (by rw [hzero]; exact h0) hinit
  rw [hzero, sub_zero] at hspec
  refine ⟨griGo info (bptExp len) 0 off, ?_, ?_, hspec.1, hspec.2.2⟩
  · unfold getRowIdx
    rw [if_neg (not_lt.mpr h0)]
  · rcases Nat.lt_or_ge (griGo info (bptExp len) 0 off) len with h | h
    · exact h
    · have hrlen : griGo info (bptExp len) 0 off = len := le_antisymm hspec.2.1 h
      exact absurd (hrlen ▸ hspec.1) (not_le.mpr h1)

/-- Witness for C10 at a concrete input: heights `[0, 0, 5]` (the first
two rows have height zero, so prefix sums `0, 0, 0, 5` tie at offset
`0`), and `getRowIdx 0` returns the greatest tied index, `2`. -/
theorem C10_locate_returns_largest_witness :
    coherent [0, 0, 0, 0, 5, 5] 3 ∧
      (∀ j, j < 3 → 0 ≤ leaf [0, 0, 0, 0, 5, 5] j) ∧
      (0 : ℚ) ≤ 0 ∧ (0 : ℚ) < leafSum [0, 0, 0, 0, 5, 5] 3 ∧
      ∃ i : ℕ, getRowIdx [0, 0, 0, 0, 5, 5] 3 0 = (i : ℤ) ∧ i < 3 ∧
        leafSum [0, 0, 0, 0, 5, 5] i ≤ 0 ∧
        ∀ j, j ≤ 3 → leafSum [0, 0, 0, 0, 5, 5] j ≤ 0 → j ≤ i :=
  ⟨by decide, by decide, by decide, by decide,
    C10_locate_returns_largest [0, 0, 0, 0, 5, 5] 3 0 (by decide) (by decide)
      (by decide) (by decide)⟩

/-- Witness for the amended C9 at a concrete input. -/
theorem C9_out_of_range_update_appends_only_witness :
    ([some 20, some 20] : List JsVal).length = 2 * 1 ∧ 1 ≤ 1 ∧
      (update1JS [none] 20 1 1 [some 20, some 20]).take (2 * 1) = [some 20, some 20] :=
  ⟨by decide, by decide,
    (C9_out_of_range_update_appends_only [none] 20 1 1 [some 20, some 20]
      (by decide) (by decide)).2⟩

end Vscroll
